import Mathlib

/-!
Shallow embedding of the fastpay core (execution engine, transaction model,
account store, block builder) and proofs of the spec-level properties.

Sources embedded:
- src/crates/state/src/account.rs  (Account)
- src/crates/state/src/state.rs    (State trait: get_account / update_account)
- src/crates/state/src/memory.rs   (MemoryState: HashMap-backed, infallible)
- src/crates/tx/src/tx.rs          (Tx, to_bytes, tx_hash)
- src/crates/vm/src/lib.rs         (VM::execute)
- src/crates/block_builder/src/lib.rs (Block, BlockBuilder)

Machine integers: u64 values are Nat; where the Rust code performs u64
arithmetic that can overflow (the credit in step 7 of execute), the model
takes the result modulo 2 ^ 64 (release-mode wrapping semantics). External
cryptography (keccak-256 via the sha3 crate, secp256k1 recovery via alloy)
is abstracted as function parameters: the code calls out to those crates
and their internals are not part of this repository.
-/

namespace Fastpay

/-- 20-byte account address (alloy `Address`): a list of raw bytes of length 20. -/
abbrev Address : Type := {l : List Nat // l.length = 20}

/-- Account record from state/account.rs: an address plus a u64 balance. -/
structure Account where
  address : Address
  balance : Nat
deriving DecidableEq

/-- `Account::new(address, balance)`. -/
def Account.new (address : Address) (balance : Nat) : Account :=
  ⟨address, balance⟩

/-- The in-memory account store: `HashMap<Address, Account>` modelled as an
association list with byte-exact key comparison. -/
abbrev StateMap : Type := List (Address × Account)

/-- `MemoryState::get_account`: lookup by key, `None` when absent. -/
def get_account (st : StateMap) (address : Address) : Option Account :=
  match st with
  | [] => none
  | (a, acct) :: rest => if a = address then some acct else get_account rest address

/-- `MemoryState::update_account` (the `HashMap::insert` effect): upsert,
replacing the entry in place when the key is present, appending otherwise. -/
def update_account (st : StateMap) (address : Address) (account : Account) : StateMap :=
  match st with
  | [] => [(address, account)]
  | (a, acct) :: rest =>
    if a = address then (address, account) :: rest
    else (a, acct) :: update_account rest address account

/-- Transaction from tx/tx.rs: the single `Transfer` variant. The signature
type is a parameter (alloy `PrimitiveSignature` is external to the repo);
Rust field `from` is `from_` here (`from` is a Lean keyword), `to` is `to_`. -/
structure Tx (Sig : Type) where
  from_ : Address
  to_ : Address
  amount : Nat
  signature : Option Sig
deriving DecidableEq

/-- Big-endian byte string of a u64 (`u64::to_be_bytes`), 8 bytes. -/
def u64_be_bytes (n : Nat) : List Nat :=
  [n / 2 ^ 56 % 256, n / 2 ^ 48 % 256, n / 2 ^ 40 % 256, n / 2 ^ 32 % 256,
   n / 2 ^ 24 % 256, n / 2 ^ 16 % 256, n / 2 ^ 8 % 256, n % 256]

/-- `Tx::to_bytes`: `from ++ to ++ amount.to_be_bytes()`; the signature is
not serialized. -/
def Tx.to_bytes {Sig : Type} (tx : Tx Sig) : List Nat :=
  tx.from_.val ++ tx.to_.val ++ u64_be_bytes tx.amount

/-- `Tx::tx_hash`: keccak-256 of `to_bytes`. The keccak function is a
parameter (the sha3 crate is external to the repo). -/
def Tx.tx_hash {Sig : Type} (keccak : List Nat → List Nat) (tx : Tx Sig) : List Nat :=
  keccak tx.to_bytes

/-- `VMError` from vm/lib.rs. -/
inductive VMError where
  | InvalidTransaction (reason : String)
deriving DecidableEq

deriving instance DecidableEq for Except

/-- `VM::execute` from vm/lib.rs, step by step. Parameters:
`keccak` abstracts the sha3 crate; `recover` abstracts
`PrimitiveSignature::recover_address_from_msg` applied to the tx hash
(`none` models a recovery error); `fails` is the backend failure schedule
of the `State` trait: `fails.1` makes the debit write (step 6) return
`StoreError`, `fails.2` the credit write (step 7); a failed write is not
applied (the in-memory backend is `fails = (false, false)`, never failing).
Returns the Rust `Result` together with the store contents after the call. -/
def execute {Sig : Type} (keccak : List Nat → List Nat)
    (recover : Sig → List Nat → Option Address)
    (fails : Bool × Bool) (st : StateMap) (tx : Tx Sig) :
    Except VMError Unit × StateMap :=
  match tx.signature with
  | none => (.error (.InvalidTransaction ("Transaction has no signature")), st)
  | some signature =>
    match recover signature (tx.tx_hash keccak) with
    | none => (.error (.InvalidTransaction ("Transaction signature is invalid")), st)
    | some recovered_address =>
      if recovered_address ≠ tx.from_ then
        (.error (.InvalidTransaction ("Transaction signature is invalid")), st)
      else
        match get_account st tx.from_ with
        | none =>
          (.error (.InvalidTransaction ("Transaction sender account does not exist")), st)
        | some from_account =>
          if from_account.balance < tx.amount then
            (.error (.InvalidTransaction
              ("Transaction sender account does not have enough balance")), st)
          else
            if fails.1 then
              (.error (.InvalidTransaction
                ("Transaction sender account does not have enough balance")), st)
            else
              let st1 := update_account st tx.from_
                (Account.new tx.from_ (from_account.balance - tx.amount))
              match get_account st1 tx.to_ with
              | none =>
                if fails.2 then
                  (.error (.InvalidTransaction
                    ("Transaction sender account does not have enough balance")), st1)
                else
                  (.ok (), update_account st1 tx.to_ (Account.new tx.to_ tx.amount))
              | some to_account =>
                if fails.2 then
                  (.error (.InvalidTransaction
                    ("Transaction sender account does not have enough balance")), st1)
                else
                  (.ok (), update_account st1 tx.to_
                    (Account.new tx.to_ ((to_account.balance + tx.amount) % 2 ^ 64)))

/-- `VM::execute` over the in-memory backend (`MemoryState` never fails). -/
def executeMem {Sig : Type} (keccak : List Nat → List Nat)
    (recover : Sig → List Nat → Option Address)
    (st : StateMap) (tx : Tx Sig) : Except VMError Unit × StateMap :=
  execute keccak recover (false, false) st tx

/-- Balance observed at an address: the stored balance, 0 when the account
is absent (used to phrase balance changes). -/
def bal (st : StateMap) (address : Address) : Nat :=
  (get_account st address).elim 0 Account.balance

/-- `B256::ZERO`: 32 zero bytes. -/
def zero32 : List Nat := List.replicate 32 0

/-- Big-endian byte string of a U256 (`U256::to_be_bytes::<32>`), 32 bytes. -/
def u256_be_bytes (n : Nat) : List Nat :=
  (List.range 32).map (fun i => n / 2 ^ (8 * (31 - i)) % 256)

/-- Block from block_builder/lib.rs. Block numbers are U256 in the source;
they are Nat here (they only ever grow by 1 per sealed block, so the 2 ^ 256
wrap is unreachable in any execution). Hash digests are byte lists. -/
structure Block (Sig : Type) where
  number : Nat
  hash : List Nat
  parent_hash : List Nat
  nonce : Nat
  timestamp : Nat
  transactions : List (Tx Sig)
  state_root : List Nat
  receipts_root : List Nat
  logs_bloom : List Nat
  gas_used : Nat
  gas_limit : Nat
  base_fee_per_gas : Option Nat
  miner : Address
deriving DecidableEq

/-- `Block::new`: hashes `number.to_be_bytes::<32>() ++ parent_hash ++
timestamp.to_be_bytes() ++ miner ++ (each tx hash in order)` and fills the
placeholder fields with their defaults. -/
def Block.new {Sig : Type} (keccak : List Nat → List Nat) (number : Nat)
    (parent_hash : List Nat) (timestamp : Nat) (transactions : List (Tx Sig))
    (miner : Address) : Block Sig :=
  { number := number
    hash := keccak (u256_be_bytes number ++ parent_hash ++ u64_be_bytes timestamp
      ++ miner.val ++ (transactions.map (Tx.tx_hash keccak)).flatten)
    parent_hash := parent_hash
    nonce := 0
    timestamp := timestamp
    transactions := transactions
    state_root := zero32
    receipts_root := zero32
    logs_bloom := []
    gas_used := 0
    gas_limit := 30000000
    base_fee_per_gas := some 1000000000
    miner := miner }

/-- `BlockBuilder` state: the `HashMap<U256, Block>` as an association list
plus the `latest_block_number` counter (the next number to assign). -/
structure BlockBuilder (Sig : Type) where
  blocks : List (Nat × Block Sig)
  latest_block_number : Nat
deriving DecidableEq

/-- `BlockBuilder::new`. -/
def BlockBuilder.new {Sig : Type} : BlockBuilder Sig :=
  ⟨[], 0⟩

/-- Lookup in the block map (`HashMap::get`). -/
def lookup_block {Sig : Type} (blocks : List (Nat × Block Sig)) (number : Nat) :
    Option (Block Sig) :=
  match blocks with
  | [] => none
  | (n, b) :: rest => if n = number then some b else lookup_block rest number

/-- Insert in the block map (`HashMap::insert`): replace in place or append. -/
def insert_block {Sig : Type} (blocks : List (Nat × Block Sig)) (number : Nat)
    (block : Block Sig) : List (Nat × Block Sig) :=
  match blocks with
  | [] => [(number, block)]
  | (n, b) :: rest =>
    if n = number then (number, block) :: rest
    else (n, b) :: insert_block rest number block

/-- `BlockBuilder::create_block`, one serialized call holding the lock. `now`
is the value `SystemTime::now()` delivered during this call (the clock is a
parameter of the behavior). Returns the sealed block and updated builder. -/
def create_block {Sig : Type} (keccak : List Nat → List Nat)
    (bb : BlockBuilder Sig) (now : Nat) (transactions : List (Tx Sig))
    (miner : Address) : Block Sig × BlockBuilder Sig :=
  let parent_hash :=
    if bb.latest_block_number = 0 then zero32
    else
      match lookup_block bb.blocks (bb.latest_block_number - 1) with
      | some block => block.hash
      | none => zero32
  let block := Block.new keccak bb.latest_block_number parent_hash now transactions miner
  (block, ⟨insert_block bb.blocks bb.latest_block_number block, bb.latest_block_number + 1⟩)

/-- `BlockBuilder::get_block`. -/
def get_block {Sig : Type} (bb : BlockBuilder Sig) (number : Nat) : Option (Block Sig) :=
  lookup_block bb.blocks number

/-- `BlockBuilder::get_latest_block`. -/
def get_latest_block {Sig : Type} (bb : BlockBuilder Sig) : Option (Block Sig) :=
  if bb.latest_block_number = 0 then none
  else get_block bb (bb.latest_block_number - 1)

/-- `BlockBuilder::get_latest_block_number`. -/
def get_latest_block_number {Sig : Type} (bb : BlockBuilder Sig) : Nat :=
  bb.latest_block_number

/-- One `create_block` call's inputs: the clock reading delivered during the
call, the transactions, and the miner. -/
structure CallInput (Sig : Type) where
  now : Nat
  transactions : List (Tx Sig)
  miner : Address

/-- The builder state after one serialized `create_block` call. -/
def builder_step {Sig : Type} (keccak : List Nat → List Nat)
    (bb : BlockBuilder Sig) (c : CallInput Sig) : BlockBuilder Sig :=
  (create_block keccak bb c.now c.transactions c.miner).2

/-- A serialized sequence of `create_block` calls run from the fresh builder. -/
def run_builder {Sig : Type} (keccak : List Nat → List Nat)
    (calls : List (CallInput Sig)) : BlockBuilder Sig :=
  calls.foldl (builder_step keccak) BlockBuilder.new

/-! ### Concrete fixtures used to instantiate the abstract parameters in
witnesses and counterexamples. -/

/-- A concrete 20-byte address (all zeros). -/
def addr0 : Address := ⟨List.replicate 20 0, by simp⟩

/-- A concrete 20-byte address (leading byte 1). -/
def addr1 : Address := ⟨1 :: List.replicate 19 0, by simp⟩

/-- A trivial stand-in for the keccak parameter (witnesses only quantify it). -/
def hash0 : List Nat → List Nat := fun _ => []

/-- A recovery function that always recovers `addr0` (models a signature by
the holder of `addr0`'s key over any message). -/
def recover0 : Unit → List Nat → Option Address := fun _ _ => some addr0

/-- A recovery function that always errors (malformed signature). -/
def recoverNone : Unit → List Nat → Option Address := fun _ _ => none

/-! ### Association-list store lemmas -/

theorem get_update_self (st : StateMap) (a : Address) (acct : Account) :
    get_account (update_account st a acct) a = some acct := by
  induction st with
  | nil => simp [update_account, get_account]
  | cons p rest ih =>
    obtain ⟨k, v⟩ := p
    by_cases h : k = a
    · simp [update_account, h, get_account]
    · simp [update_account, h, get_account, ih]

theorem get_update_ne (st : StateMap) (a b : Address) (acct : Account)
    (h : a ≠ b) :
    get_account (update_account st a acct) b = get_account st b := by
  induction st with
  | nil => simp [update_account, get_account, h]
  | cons p rest ih =>
    obtain ⟨k, v⟩ := p
    by_cases hk : k = a
    · subst hk
      simp [update_account, get_account, h]
    · simp [update_account, hk, get_account, ih]

theorem update_update_same (st : StateMap) (a : Address) (x y : Account) :
    update_account (update_account st a x) a y = update_account st a y := by
  induction st with
  | nil => simp [update_account]
  | cons p rest ih =>
    obtain ⟨k, v⟩ := p
    by_cases hk : k = a
    · simp [update_account, hk]
    · simp [update_account, hk, ih]

theorem update_get_self (st : StateMap) (a : Address) (acct : Account)
    (h : get_account st a = some acct) : update_account st a acct = st := by
  induction st with
  | nil => simp [get_account] at h
  | cons p rest ih =>
    obtain ⟨k, v⟩ := p
    by_cases hk : k = a
    · subst hk
      simp [get_account] at h
      simp [update_account, h]
    · simp [get_account, hk] at h
      simp [update_account, hk, ih h]

/-! ### Characterizations of `execute` -/

/-- Inversion: a successful `execute` implies the four validations passed. -/
theorem execute_ok_inv {Sig : Type} (keccak : List Nat → List Nat)
    (recover : Sig → List Nat → Option Address) (fails : Bool × Bool)
    (st : StateMap) (tx : Tx Sig)
    (h : (execute keccak recover fails st tx).1 = .ok ()) :
    ∃ sig acct, tx.signature = some sig ∧
      recover sig (tx.tx_hash keccak) = some tx.from_ ∧
      get_account st tx.from_ = some acct ∧ tx.amount ≤ acct.balance := by
  cases hs : tx.signature with
  | none => simp [execute, hs] at h
  | some sig =>
    cases hr : recover sig (tx.tx_hash keccak) with
    | none => simp [execute, hs, hr] at h
    | some r =>
      by_cases hrf : r = tx.from_
      · subst hrf
        cases ha : get_account st tx.from_ with
        | none => simp [execute, hs, hr, ha] at h
        | some acct =>
          by_cases hb : acct.balance < tx.amount
          · simp [execute, hs, hr, ha, hb] at h
          · exact ⟨sig, acct, rfl, hr, rfl, Nat.not_lt.mp hb⟩
      · simp [execute, hs, hr, hrf] at h

/-- The exact result of `execute` when all validations pass and the backend
does not fail: debit then credit, with the new-account path when the
recipient is absent after the debit. -/
theorem execute_ok_result {Sig : Type} (keccak : List Nat → List Nat)
    (recover : Sig → List Nat → Option Address) (fails : Bool × Bool)
    (st : StateMap) (tx : Tx Sig) (sig : Sig) (acct : Account)
    (hs : tx.signature = some sig)
    (hr : recover sig (tx.tx_hash keccak) = some tx.from_)
    (ha : get_account st tx.from_ = some acct)
    (hb : tx.amount ≤ acct.balance)
    (hf0 : fails.1 = false) (hf1 : fails.2 = false) :
    execute keccak recover fails st tx =
      (match get_account (update_account st tx.from_
          (Account.new tx.from_ (acct.balance - tx.amount))) tx.to_ with
      | none =>
        (.ok (), update_account (update_account st tx.from_
          (Account.new tx.from_ (acct.balance - tx.amount))) tx.to_
          (Account.new tx.to_ tx.amount))
      | some to_account =>
        (.ok (), update_account (update_account st tx.from_
          (Account.new tx.from_ (acct.balance - tx.amount))) tx.to_
          (Account.new tx.to_ ((to_account.balance + tx.amount) % 2 ^ 64)))) := by
  simp only [execute, hs, hr, ha, hf0, hf1]
  simp [Nat.not_lt.mpr hb]

/-! ### C1: conservation -/

/-- C1 (counterexample): the claim quantifies over all from/to pairs
including from == to, but on a successful self-transfer of amount 3 from a
balance of 5 the sender balance does not change at all, so the balance
change of tx.from is 0, not -3. -/
theorem execute_conservation_cex :
    (executeMem hash0 recover0 [(addr0, Account.new addr0 5)]
      (⟨addr0, addr0, 3, some ()⟩ : Tx Unit)).1 = .ok () ∧
    ¬ ((bal (executeMem hash0 recover0 [(addr0, Account.new addr0 5)]
          (⟨addr0, addr0, 3, some ()⟩ : Tx Unit)).2 addr0 : ℤ)
        - (bal [(addr0, Account.new addr0 5)] addr0 : ℤ) = -(3 : ℤ)) := by
  decide

/-- C1 (amended): for any successful execute(tx) with tx.from different from
tx.to whose credit does not overflow u64, the balance change of tx.from is
exactly -tx.amount and the balance changes of tx.from and tx.to sum to zero;
for from == to the state's balances are unchanged (see the self-transfer
theorem), so the in-place change is 0, not -tx.amount. -/
theorem execute_conservation {Sig : Type} (keccak : List Nat → List Nat)
    (recover : Sig → List Nat → Option Address) (st : StateMap) (tx : Tx Sig)
    (hok : (executeMem keccak recover st tx).1 = .ok ())
    (hne : tx.from_ ≠ tx.to_)
    (hov : bal st tx.to_ + tx.amount < 2 ^ 64) :
    (bal (executeMem keccak recover st tx).2 tx.from_ : ℤ) - (bal st tx.from_ : ℤ)
        = -(tx.amount : ℤ) ∧
    ((bal (executeMem keccak recover st tx).2 tx.from_ : ℤ) - (bal st tx.from_ : ℤ))
      + ((bal (executeMem keccak recover st tx).2 tx.to_ : ℤ) - (bal st tx.to_ : ℤ))
        = 0 := by
  obtain ⟨sig, acct, hs, hr, ha, hb⟩ := execute_ok_inv keccak recover (false, false) st tx hok
  have hres := execute_ok_result keccak recover (false, false) st tx sig acct hs hr ha hb rfl rfl
  rw [get_update_ne st tx.from_ tx.to_ _ hne] at hres
  have hfrom0 : bal st tx.from_ = acct.balance := by simp [bal, ha]
  cases hty : get_account st tx.to_ with
  | none =>
    rw [hty] at hres
    have hto0 : bal st tx.to_ = 0 := by simp [bal, hty]
    have h2 : (executeMem keccak recover st tx).2 =
        update_account (update_account st tx.from_
          (Account.new tx.from_ (acct.balance - tx.amount))) tx.to_
          (Account.new tx.to_ tx.amount) := by
      show (execute keccak recover (false, false) st tx).2 = _
      rw [hres]
    have hf : bal (executeMem keccak recover st tx).2 tx.from_
        = acct.balance - tx.amount := by
      rw [h2]
      simp [bal, get_update_ne _ _ _ _ (Ne.symm hne), get_update_self, Account.new]
    have ht : bal (executeMem keccak recover st tx).2 tx.to_ = tx.amount := by
      rw [h2]
      simp [bal, get_update_self, Account.new]
    refine ⟨?_, ?_⟩
    · rw [hf, hfrom0]
      omega
    · rw [hf, ht, hfrom0, hto0]
      omega
  | some toA =>
    rw [hty] at hres
    have hto0 : bal st tx.to_ = toA.balance := by simp [bal, hty]
    have hmod : (toA.balance + tx.amount) % 2 ^ 64 = toA.balance + tx.amount := by
      apply Nat.mod_eq_of_lt
      rw [hto0] at hov
      omega
    have h2 : (executeMem keccak recover st tx).2 =
        update_account (update_account st tx.from_
          (Account.new tx.from_ (acct.balance - tx.amount))) tx.to_
          (Account.new tx.to_ (toA.balance + tx.amount)) := by
      show (execute keccak recover (false, false) st tx).2 = _
      rw [hres]
      simp only [hmod]
    have hf : bal (executeMem keccak recover st tx).2 tx.from_
        = acct.balance - tx.amount := by
      rw [h2]
      simp [bal, get_update_ne _ _ _ _ (Ne.symm hne), get_update_self, Account.new]
    have ht : bal (executeMem keccak recover st tx).2 tx.to_
        = toA.balance + tx.amount := by
      rw [h2]
      simp [bal, get_update_self, Account.new]
    refine ⟨?_, ?_⟩
    · rw [hf, hfrom0]
      omega
    · rw [hf, ht, hfrom0, hto0]
      omega

/-- Concrete store used by witnesses: addr0 holds balance 5. -/
def stW : StateMap := [(addr0, Account.new addr0 5)]

/-- Concrete transfer used by witnesses: addr0 sends 3 to addr1, signed. -/
def txW : Tx Unit := ⟨addr0, addr1, 3, some ()⟩

/-- Witness for the amended conservation theorem at a concrete input. -/
theorem execute_conservation_witness :
    ((executeMem hash0 recover0 stW txW).1 = .ok () ∧ txW.from_ ≠ txW.to_ ∧
      bal stW txW.to_ + txW.amount < 2 ^ 64) ∧
    ((bal (executeMem hash0 recover0 stW txW).2 txW.from_ : ℤ)
        - (bal stW txW.from_ : ℤ) = -(txW.amount : ℤ) ∧
      ((bal (executeMem hash0 recover0 stW txW).2 txW.from_ : ℤ)
          - (bal stW txW.from_ : ℤ))
        + ((bal (executeMem hash0 recover0 stW txW).2 txW.to_ : ℤ)
            - (bal stW txW.to_ : ℤ)) = 0) :=
  ⟨⟨by decide, by decide, by decide⟩,
    execute_conservation hash0 recover0 stW txW (by decide) (by decide) (by decide)⟩

/-! ### C10: self-transfer is a no-op -/

/-- C10: a validly signed self-transfer (from == to) of any amount up to the
sender's balance succeeds and leaves the store exactly as it was: the debit
is written, re-read by the credit, and the credit restores the original
balance. Hypotheses `haddr` and `hlt` state that the stored record is
well-formed: it carries its own key as its address (every write in the
repository does, and the account data model keys records by their address)
and its balance is a u64 value. -/
theorem execute_self_transfer_noop {Sig : Type} (keccak : List Nat → List Nat)
    (recover : Sig → List Nat → Option Address) (st : StateMap) (tx : Tx Sig)
    (sig : Sig) (acct : Account)
    (hself : tx.from_ = tx.to_)
    (hs : tx.signature = some sig)
    (hr : recover sig (tx.tx_hash keccak) = some tx.from_)
    (ha : get_account st tx.from_ = some acct)
    (haddr : acct.address = tx.from_)
    (hb : tx.amount ≤ acct.balance)
    (hlt : acct.balance < 2 ^ 64) :
    executeMem keccak recover st tx = (.ok (), st) := by
  have hres := execute_ok_result keccak recover (false, false) st tx sig acct hs hr ha hb rfl rfl
  rw [← hself, get_update_self] at hres
  simp only [Account.new] at hres
  rw [Nat.sub_add_cancel hb, Nat.mod_eq_of_lt hlt, update_update_same] at hres
  have hacct : (⟨tx.from_, acct.balance⟩ : Account) = acct := by
    cases acct
    simp_all [Account.new]
  rw [hacct, update_get_self st tx.from_ acct ha] at hres
  exact hres

/-- Witness for the self-transfer no-op at a concrete input. -/
theorem execute_self_transfer_noop_witness :
    ((⟨addr0, addr0, 3, some ()⟩ : Tx Unit).from_
        = (⟨addr0, addr0, 3, some ()⟩ : Tx Unit).to_ ∧
      (⟨addr0, addr0, 3, some ()⟩ : Tx Unit).signature = some () ∧
      recover0 () ((⟨addr0, addr0, 3, some ()⟩ : Tx Unit).tx_hash hash0)
        = some addr0 ∧
      get_account stW addr0 = some (Account.new addr0 5) ∧
      (Account.new addr0 5).address = addr0 ∧ 3 ≤ 5 ∧ 5 < 2 ^ 64) ∧
    executeMem hash0 recover0 stW (⟨addr0, addr0, 3, some ()⟩ : Tx Unit)
      = (.ok (), stW) :=
  ⟨⟨by decide, by decide, by decide, by decide, by decide, by decide, by decide⟩,
    execute_self_transfer_noop hash0 recover0 stW (⟨addr0, addr0, 3, some ()⟩ : Tx Unit)
      () (Account.new addr0 5) (by decide) (by decide) (by decide) (by decide)
      (by decide) (by decide) (by decide)⟩

/-! ### C9: zero-amount transfers -/

/-- C9: a validly signed zero-amount transfer from an existing sender to a
different address always succeeds (the balance check passes at amount 0),
leaves the balance of every existing account unchanged, and when the
recipient was absent creates its record with balance 0. `hto` is the u64
range bound on the recipient balance (a u64 in the source). -/
theorem execute_zero_amount {Sig : Type} (keccak : List Nat → List Nat)
    (recover : Sig → List Nat → Option Address) (st : StateMap) (tx : Tx Sig)
    (sig : Sig) (acct : Account)
    (hs : tx.signature = some sig)
    (hr : recover sig (tx.tx_hash keccak) = some tx.from_)
    (ha : get_account st tx.from_ = some acct)
    (hz : tx.amount = 0)
    (hne : tx.from_ ≠ tx.to_)
    (hto : bal st tx.to_ < 2 ^ 64) :
    (executeMem keccak recover st tx).1 = .ok () ∧
    (∀ a acct0, get_account st a = some acct0 →
      ∃ acct1, get_account (executeMem keccak recover st tx).2 a = some acct1 ∧
        acct1.balance = acct0.balance) ∧
    (get_account st tx.to_ = none →
      get_account (executeMem keccak recover st tx).2 tx.to_
        = some (Account.new tx.to_ 0)) := by
  have hb : tx.amount ≤ acct.balance := by omega
  have hres := execute_ok_result keccak recover (false, false) st tx sig acct hs hr ha hb rfl rfl
  rw [get_update_ne st tx.from_ tx.to_ _ hne] at hres
  cases hty : get_account st tx.to_ with
  | none =>
    rw [hty] at hres
    have h2 : execute keccak recover (false, false) st tx =
        (.ok (), update_account (update_account st tx.from_
          (Account.new tx.from_ (acct.balance - tx.amount))) tx.to_
          (Account.new tx.to_ tx.amount)) := by
      rw [hres]
    have h2st : (executeMem keccak recover st tx).2 =
        update_account (update_account st tx.from_
          (Account.new tx.from_ (acct.balance - tx.amount))) tx.to_
          (Account.new tx.to_ tx.amount) := by
      show (execute keccak recover (false, false) st tx).2 = _
      rw [h2]
    refine ⟨by show (execute keccak recover (false, false) st tx).1 = _; rw [h2], ?_, ?_⟩
    · intro a acct0 hga
      by_cases hat : a = tx.to_
      · rw [hat, hty] at hga
        exact absurd hga (by simp)
      · by_cases haf : a = tx.from_
        · subst haf
          refine ⟨Account.new tx.from_ (acct.balance - tx.amount), ?_, ?_⟩
          · rw [h2st, get_update_ne _ _ _ _ (fun h => hat h.symm),
              get_update_self]
          · rw [ha] at hga
            cases hga
            simp [Account.new, hz]
        · refine ⟨acct0, ?_, rfl⟩
          rw [h2st, get_update_ne _ _ _ _ (fun h => hat h.symm),
            get_update_ne _ _ _ _ (fun h => haf h.symm)]
          exact hga
    · intro _
      rw [h2st, hz]
      exact get_update_self _ _ _
  | some toA =>
    rw [hty] at hres
    have htoA : bal st tx.to_ = toA.balance := by simp [bal, hty]
    have hmod : (toA.balance + tx.amount) % 2 ^ 64 = toA.balance := by
      rw [hz]
      apply Nat.mod_eq_of_lt
      omega
    have h2 : execute keccak recover (false, false) st tx =
        (.ok (), update_account (update_account st tx.from_
          (Account.new tx.from_ (acct.balance - tx.amount))) tx.to_
          (Account.new tx.to_ ((toA.balance + tx.amount) % 2 ^ 64))) := by
      rw [hres]
    rw [hmod] at h2
    have h2st : (executeMem keccak recover st tx).2 =
        update_account (update_account st tx.from_
          (Account.new tx.from_ (acct.balance - tx.amount))) tx.to_
          (Account.new tx.to_ toA.balance) := by
      show (execute keccak recover (false, false) st tx).2 = _
      rw [h2]
    refine ⟨by show (execute keccak recover (false, false) st tx).1 = _; rw [h2], ?_, ?_⟩
    · intro a acct0 hga
      by_cases hat : a = tx.to_
      · subst hat
        rw [hty] at hga
        cases hga
        refine ⟨Account.new tx.to_ toA.balance, ?_, by simp [Account.new]⟩
        rw [h2st]
        exact get_update_self _ _ _
      · by_cases haf : a = tx.from_
        · subst haf
          refine ⟨Account.new tx.from_ (acct.balance - tx.amount), ?_, ?_⟩
          · rw [h2st, get_update_ne _ _ _ _ (fun h => hat h.symm),
              get_update_self]
          · rw [ha] at hga
            cases hga
            simp [Account.new, hz]
        · refine ⟨acct0, ?_, rfl⟩
          rw [h2st, get_update_ne _ _ _ _ (fun h => hat h.symm),
            get_update_ne _ _ _ _ (fun h => haf h.symm)]
          exact hga
    · intro hnone
      exact absurd hnone (by simp)

/-- Witness for the zero-amount theorem at a concrete input (recipient
absent). -/
theorem execute_zero_amount_witness :
    ((⟨addr0, addr1, 0, some ()⟩ : Tx Unit).signature = some () ∧
      get_account stW addr0 = some (Account.new addr0 5) ∧
      (⟨addr0, addr1, 0, some ()⟩ : Tx Unit).amount = 0 ∧
      addr0 ≠ addr1 ∧ bal stW addr1 < 2 ^ 64) ∧
    ((executeMem hash0 recover0 stW (⟨addr0, addr1, 0, some ()⟩ : Tx Unit)).1
        = .ok () ∧
      (∀ a acct0, get_account stW a = some acct0 →
        ∃ acct1, get_account (executeMem hash0 recover0 stW
            (⟨addr0, addr1, 0, some ()⟩ : Tx Unit)).2 a = some acct1 ∧
          acct1.balance = acct0.balance) ∧
      (get_account stW addr1 = none →
        get_account (executeMem hash0 recover0 stW
            (⟨addr0, addr1, 0, some ()⟩ : Tx Unit)).2 addr1
          = some (Account.new addr1 0))) :=
  ⟨⟨by decide, by decide, by decide, by decide, by decide⟩,
    execute_zero_amount hash0 recover0 stW (⟨addr0, addr1, 0, some ()⟩ : Tx Unit)
      () (Account.new addr0 5) (by decide) (by decide) (by decide) (by decide)
      (by decide) (by decide)⟩

/-! ### C2: isolation on failure -/

/-- Unsigned transfer used by witnesses for the failure paths. -/
def txNoSig : Tx Unit := ⟨addr0, addr1, 3, none⟩

/-- C2 (counterexample): with a backend whose second write (the credit of
step 7) returns a StoreError, execute returns InvalidTransaction but the
sender's debit from step 6 has already been written and persists: the state
after the failed call differs from the state before it. -/
theorem execute_failure_isolation_cex :
    (execute hash0 recover0 (false, true) stW txW).1
      = .error (.InvalidTransaction
        ("Transaction sender account does not have enough balance")) ∧
    (execute hash0 recover0 (false, true) stW txW).2 ≠ stW := by
  decide

/-- C2 (amended): for any failed execute, either the store is unchanged
(all validation failures of steps 1-5 and a StoreError at the debit of step
6 behave this way), or the failure was a StoreError at the credit of step 7,
in which case exactly the sender's debit persists: a partial transfer is
observable. The engine performs no rollback. -/
theorem execute_failure_isolation {Sig : Type} (keccak : List Nat → List Nat)
    (recover : Sig → List Nat → Option Address) (fails : Bool × Bool)
    (st : StateMap) (tx : Tx Sig) (e : VMError)
    (herr : (execute keccak recover fails st tx).1 = .error e) :
    (execute keccak recover fails st tx).2 = st ∨
    (fails.2 = true ∧ ∃ acct, get_account st tx.from_ = some acct ∧
      (execute keccak recover fails st tx).2 =
        update_account st tx.from_
          (Account.new tx.from_ (acct.balance - tx.amount))) := by
  cases hs : tx.signature with
  | none => exact Or.inl (by simp [execute, hs])
  | some sig =>
    cases hr : recover sig (tx.tx_hash keccak) with
    | none => exact Or.inl (by simp [execute, hs, hr])
    | some r =>
      by_cases hrf : r = tx.from_
      · subst hrf
        cases ha : get_account st tx.from_ with
        | none => exact Or.inl (by simp [execute, hs, hr, ha])
        | some acct =>
          by_cases hb : acct.balance < tx.amount
          · exact Or.inl (by simp [execute, hs, hr, ha, hb])
          · by_cases hf0 : fails.1
            · exact Or.inl (by simp [execute, hs, hr, ha, hb, hf0])
            · by_cases hf1 : fails.2
              · refine Or.inr ⟨hf1, acct, rfl, ?_⟩
                cases hty : get_account (update_account st tx.from_
                    (Account.new tx.from_ (acct.balance - tx.amount))) tx.to_ with
                | none => simp [execute, hs, hr, ha, hb, hf0, hf1, hty]
                | some toA => simp [execute, hs, hr, ha, hb, hf0, hf1, hty]
              · exfalso
                have hok := execute_ok_result keccak recover fails st tx sig acct
                  hs hr ha (Nat.not_lt.mp hb) (by simpa using hf0) (by simpa using hf1)
                rw [hok] at herr
                cases hty : get_account (update_account st tx.from_
                    (Account.new tx.from_ (acct.balance - tx.amount))) tx.to_ with
                | none =>
                  rw [hty] at herr
                  simp at herr
                | some toA =>
                  rw [hty] at herr
                  simp at herr
      · exact Or.inl (by simp [execute, hs, hr, hrf])

/-- Witness for the amended isolation theorem at a concrete failing input
(missing signature: the store is unchanged). -/
theorem execute_failure_isolation_witness :
    (execute hash0 recover0 (false, false) stW txNoSig).1
      = .error (.InvalidTransaction ("Transaction has no signature")) ∧
    ((execute hash0 recover0 (false, false) stW txNoSig).2 = stW ∨
      (((false, false) : Bool × Bool).2 = true ∧
        ∃ acct, get_account stW txNoSig.from_ = some acct ∧
          (execute hash0 recover0 (false, false) stW txNoSig).2 =
            update_account stW txNoSig.from_
              (Account.new txNoSig.from_ (acct.balance - txNoSig.amount)))) :=
  ⟨by decide,
    execute_failure_isolation hash0 recover0 (false, false) stW txNoSig
      (.InvalidTransaction ("Transaction has no signature")) (by decide)⟩

/-! ### C3: validation order and reasons -/

/-- C3: the validation checks of execute fire in the normative order, with
the code's reason strings (these carry the §7 vocabulary as spec labels):
an absent signature fails first, with no recovery attempted (the result
does not depend on the recover function); a recovery error or a recovered
address different from tx.from fails with the signature-invalid reason; an
absent sender fails next; an insufficient balance fails last. In all these
cases the store is returned unchanged, for every backend failure
schedule. -/
theorem execute_validation_order {Sig : Type} (keccak : List Nat → List Nat)
    (recover : Sig → List Nat → Option Address) (fails : Bool × Bool)
    (st : StateMap) (tx : Tx Sig) :
    (tx.signature = none →
      execute keccak recover fails st tx
        = (.error (.InvalidTransaction ("Transaction has no signature")), st)) ∧
    (∀ sig, tx.signature = some sig → recover sig (tx.tx_hash keccak) = none →
      execute keccak recover fails st tx
        = (.error (.InvalidTransaction ("Transaction signature is invalid")), st)) ∧
    (∀ sig r, tx.signature = some sig → recover sig (tx.tx_hash keccak) = some r →
      r ≠ tx.from_ →
      execute keccak recover fails st tx
        = (.error (.InvalidTransaction ("Transaction signature is invalid")), st)) ∧
    (∀ sig, tx.signature = some sig →
      recover sig (tx.tx_hash keccak) = some tx.from_ →
      get_account st tx.from_ = none →
      execute keccak recover fails st tx
        = (.error (.InvalidTransaction
          ("Transaction sender account does not exist")), st)) ∧
    (∀ sig acct, tx.signature = some sig →
      recover sig (tx.tx_hash keccak) = some tx.from_ →
      get_account st tx.from_ = some acct → acct.balance < tx.amount →
      execute keccak recover fails st tx
        = (.error (.InvalidTransaction
          ("Transaction sender account does not have enough balance")), st)) := by
  refine ⟨?_, ?_, ?_, ?_, ?_⟩
  · intro hs
    simp [execute, hs]
  · intro sig hs hr
    simp [execute, hs, hr]
  · intro sig r hs hr hne
    simp [execute, hs, hr, hne]
  · intro sig hs hr ha
    simp [execute, hs, hr, ha]
  · intro sig acct hs hr ha hb
    simp [execute, hs, hr, ha, hb]

/-- Witness for the validation-order theorem: the no-signature case and the
insufficient-balance case evaluated at concrete inputs. -/
theorem execute_validation_order_witness :
    (txNoSig.signature = none ∧
      execute hash0 recover0 (false, false) stW txNoSig
        = (.error (.InvalidTransaction ("Transaction has no signature")), stW)) ∧
    ((⟨addr0, addr1, 9, some ()⟩ : Tx Unit).signature = some () ∧
      get_account stW addr0 = some (Account.new addr0 5) ∧
      (Account.new addr0 5).balance < 9 ∧
      execute hash0 recover0 (false, false) stW (⟨addr0, addr1, 9, some ()⟩ : Tx Unit)
        = (.error (.InvalidTransaction
          ("Transaction sender account does not have enough balance")), stW)) :=
  ⟨⟨by decide, (execute_validation_order hash0 recover0 (false, false) stW txNoSig).1 (by decide)⟩,
    ⟨by decide, by decide, by decide,
      (execute_validation_order hash0 recover0 (false, false) stW
        (⟨addr0, addr1, 9, some ()⟩ : Tx Unit)).2.2.2.2 () (Account.new addr0 5)
        (by decide) (by decide) (by decide) (by decide)⟩⟩

/-! ### C4: overflow at the credit -/

/-- Store where the recipient already holds the maximal u64 balance. -/
def stOv : StateMap :=
  [(addr0, Account.new addr0 1), (addr1, Account.new addr1 (2 ^ 64 - 1))]

/-- C4: the code performs an unchecked u64 addition `to_balance + amount`
at the credit of step 7. At a state where the recipient holds 2^64 - 1 and
is credited 1 more, execute returns ok and the recipient balance wraps to 0
(release semantics; a debug build would panic): no
InvalidTransaction("balance overflow") is returned — that reason string
appears nowhere in the code. -/
theorem execute_credit_overflow_wraps :
    (executeMem hash0 recover0 stOv (⟨addr0, addr1, 1, some ()⟩ : Tx Unit)).1
      = .ok () ∧
    bal (executeMem hash0 recover0 stOv
      (⟨addr0, addr1, 1, some ()⟩ : Tx Unit)).2 addr1 = 0 := by
  decide

/-! ### C5: canonical encoding and content hash -/

/-- C5: to_bytes is exactly the 48-byte concatenation
from(20) ++ to(20) ++ amount_big_endian(8); tx_hash is keccak-256 of those
48 bytes; and any two transactions agreeing on (from, to, amount) have the
same hash regardless of their signature fields. -/
theorem tx_hash_canonical {Sig : Type} (keccak : List Nat → List Nat)
    (tx tx2 : Tx Sig)
    (h1 : tx.from_ = tx2.from_) (h2 : tx.to_ = tx2.to_)
    (h3 : tx.amount = tx2.amount) :
    tx.to_bytes = tx.from_.val ++ tx.to_.val ++ u64_be_bytes tx.amount ∧
    tx.to_bytes.length = 48 ∧
    (u64_be_bytes tx.amount).length = 8 ∧
    tx.tx_hash keccak = keccak tx.to_bytes ∧
    tx.tx_hash keccak = tx2.tx_hash keccak := by
  refine ⟨rfl, ?_, by simp [u64_be_bytes], rfl, ?_⟩
  · simp [Tx.to_bytes, u64_be_bytes, tx.from_.prop, tx.to_.prop]
  · simp [Tx.tx_hash, Tx.to_bytes, h1, h2, h3]

/-- Witness for the encoding/hash theorem: two concrete transfers with the
same (from, to, amount), one unsigned and one signed. -/
theorem tx_hash_canonical_witness :
    ((⟨addr0, addr1, 7, none⟩ : Tx Unit).from_
        = (⟨addr0, addr1, 7, some ()⟩ : Tx Unit).from_ ∧
      (⟨addr0, addr1, 7, none⟩ : Tx Unit).to_
        = (⟨addr0, addr1, 7, some ()⟩ : Tx Unit).to_ ∧
      (⟨addr0, addr1, 7, none⟩ : Tx Unit).amount
        = (⟨addr0, addr1, 7, some ()⟩ : Tx Unit).amount) ∧
    ((⟨addr0, addr1, 7, none⟩ : Tx Unit).to_bytes
        = addr0.val ++ addr1.val ++ u64_be_bytes 7 ∧
      (⟨addr0, addr1, 7, none⟩ : Tx Unit).to_bytes.length = 48 ∧
      (u64_be_bytes 7).length = 8 ∧
      (⟨addr0, addr1, 7, none⟩ : Tx Unit).tx_hash hash0
        = hash0 (⟨addr0, addr1, 7, none⟩ : Tx Unit).to_bytes ∧
      (⟨addr0, addr1, 7, none⟩ : Tx Unit).tx_hash hash0
        = (⟨addr0, addr1, 7, some ()⟩ : Tx Unit).tx_hash hash0) :=
  ⟨⟨by decide, by decide, by decide⟩,
    tx_hash_canonical hash0 (⟨addr0, addr1, 7, none⟩ : Tx Unit)
      (⟨addr0, addr1, 7, some ()⟩ : Tx Unit) (by decide) (by decide) (by decide)⟩

/-! ### Block-builder lemmas and chain invariant -/

@[simp] theorem Block.new_number {Sig : Type} (keccak : List Nat → List Nat)
    (n : Nat) (p : List Nat) (t : Nat) (txs : List (Tx Sig)) (m : Address) :
    (Block.new keccak n p t txs m).number = n := rfl

@[simp] theorem Block.new_parent_hash {Sig : Type} (keccak : List Nat → List Nat)
    (n : Nat) (p : List Nat) (t : Nat) (txs : List (Tx Sig)) (m : Address) :
    (Block.new keccak n p t txs m).parent_hash = p := rfl

@[simp] theorem Block.new_timestamp {Sig : Type} (keccak : List Nat → List Nat)
    (n : Nat) (p : List Nat) (t : Nat) (txs : List (Tx Sig)) (m : Address) :
    (Block.new keccak n p t txs m).timestamp = t := rfl

theorem lookup_insert_self {Sig : Type} (blocks : List (Nat × Block Sig))
    (n : Nat) (b : Block Sig) :
    lookup_block (insert_block blocks n b) n = some b := by
  induction blocks with
  | nil => simp [insert_block, lookup_block]
  | cons p rest ih =>
    obtain ⟨k, v⟩ := p
    by_cases h : k = n
    · simp [insert_block, h, lookup_block]
    · simp [insert_block, h, lookup_block, ih]

theorem lookup_insert_ne {Sig : Type} (blocks : List (Nat × Block Sig))
    (n m : Nat) (b : Block Sig) (h : n ≠ m) :
    lookup_block (insert_block blocks n b) m = lookup_block blocks m := by
  induction blocks with
  | nil => simp [insert_block, lookup_block, h]
  | cons p rest ih =>
    obtain ⟨k, v⟩ := p
    by_cases hk : k = n
    · subst hk
      simp [insert_block, lookup_block, h]
    · simp [insert_block, hk, lookup_block, ih]

theorem lookup_cons_self {Sig : Type} (k : Nat) (b : Block Sig)
    (rest : List (Nat × Block Sig)) :
    lookup_block ((k, b) :: rest) k = some b := by
  simp [lookup_block]

/-- The normalized shape of one `create_block` transition. -/
theorem builder_step_eq {Sig : Type} (keccak : List Nat → List Nat)
    (bb : BlockBuilder Sig) (c : CallInput Sig) :
    builder_step keccak bb c =
      ⟨insert_block bb.blocks bb.latest_block_number
        (Block.new keccak bb.latest_block_number
          (if bb.latest_block_number = 0 then zero32
           else
             match lookup_block bb.blocks (bb.latest_block_number - 1) with
             | some block => block.hash
             | none => zero32)
          c.now c.transactions c.miner),
        bb.latest_block_number + 1⟩ := rfl

/-- Invariant of every reachable builder state: the stored keys are exactly
the numbers below the counter, each block records its own key as `number`,
block 0 carries the zero parent hash, and each block links to the hash of
its predecessor. -/
structure ChainInv {Sig : Type} (bb : BlockBuilder Sig) : Prop where
  bound : ∀ n, (lookup_block bb.blocks n).isSome ↔ n < bb.latest_block_number
  number_eq : ∀ n b, lookup_block bb.blocks n = some b → b.number = n
  genesis : ∀ b, lookup_block bb.blocks 0 = some b → b.parent_hash = zero32
  link : ∀ m b, lookup_block bb.blocks (m + 1) = some b →
    ∃ p, lookup_block bb.blocks m = some p ∧ b.parent_hash = p.hash

theorem chaininv_new {Sig : Type} : ChainInv (BlockBuilder.new : BlockBuilder Sig) := by
  refine ⟨?_, ?_, ?_, ?_⟩
  · intro n
    simp [BlockBuilder.new, lookup_block]
  · intro n b hb
    simp [BlockBuilder.new, lookup_block] at hb
  · intro b hb
    simp [BlockBuilder.new, lookup_block] at hb
  · intro m b hb
    simp [BlockBuilder.new, lookup_block] at hb

theorem chaininv_step {Sig : Type} (keccak : List Nat → List Nat)
    (bb : BlockBuilder Sig) (c : CallInput Sig) (h : ChainInv bb) :
    ChainInv (builder_step keccak bb c) := by
  rw [builder_step_eq]
  refine ⟨?_, ?_, ?_, ?_⟩
  · intro n
    by_cases hn : n = bb.latest_block_number
    · subst hn
      rw [lookup_insert_self]
      simp
    · rw [lookup_insert_ne _ _ _ _ (fun hh => hn hh.symm)]
      rw [h.bound n]
      show n < bb.latest_block_number ↔ n < bb.latest_block_number + 1
      omega
  · intro n b hb
    by_cases hn : n = bb.latest_block_number
    · subst hn
      rw [lookup_insert_self] at hb
      cases hb
      simp
    · rw [lookup_insert_ne _ _ _ _ (fun hh => hn hh.symm)] at hb
      exact h.number_eq n b hb
  · intro b hb
    by_cases h0 : bb.latest_block_number = 0
    · rw [show (0 : Nat) = bb.latest_block_number from h0.symm,
        lookup_insert_self] at hb
      cases hb
      simp [h0]
    · rw [lookup_insert_ne _ _ _ _ (fun hh => h0 hh)] at hb
      exact h.genesis b hb
  · intro m b hb
    by_cases hm : m + 1 = bb.latest_block_number
    · rw [show bb.latest_block_number = m + 1 from hm.symm, lookup_insert_self] at hb
      cases hb
      have hmlt : m < bb.latest_block_number := by omega
      have hsome : (lookup_block bb.blocks m).isSome := (h.bound m).mpr hmlt
      obtain ⟨p, hp⟩ := Option.isSome_iff_exists.mp hsome
      refine ⟨p, ?_, ?_⟩
      · rw [lookup_insert_ne _ _ _ _ (by omega)]
        exact hp
      · simp only [Block.new_parent_hash, if_neg (Nat.succ_ne_zero m),
          Nat.add_sub_cancel]
        rw [hp]
    · rw [lookup_insert_ne _ _ _ _ (fun hh => hm hh.symm)] at hb
      obtain ⟨p, hp, hlink⟩ := h.link m b hb
      have hmlt : m < bb.latest_block_number := by
        have h1 : (lookup_block bb.blocks (m + 1)).isSome := by
          rw [hb]
          rfl
        have := (h.bound (m + 1)).mp h1
        omega
      refine ⟨p, ?_, hlink⟩
      rw [lookup_insert_ne _ _ _ _ (by omega)]
      exact hp

theorem chaininv_run_from {Sig : Type} (keccak : List Nat → List Nat)
    (calls : List (CallInput Sig)) (bb : BlockBuilder Sig) (h : ChainInv bb) :
    ChainInv (calls.foldl (builder_step keccak) bb) := by
  induction calls generalizing bb with
  | nil => exact h
  | cons c cs ih => exact ih (builder_step keccak bb c) (chaininv_step keccak bb c h)

theorem chaininv_run {Sig : Type} (keccak : List Nat → List Nat)
    (calls : List (CallInput Sig)) : ChainInv (run_builder keccak calls) :=
  chaininv_run_from keccak calls BlockBuilder.new chaininv_new

/-- Every block of a run either predates the run or was sealed by call `i`
of the run, in which case its timestamp is that call's clock reading. -/
theorem run_from_timestamp {Sig : Type} (keccak : List Nat → List Nat)
    (calls : List (CallInput Sig)) :
    ∀ (bb : BlockBuilder Sig) (n : Nat) (b : Block Sig),
      lookup_block ((calls.foldl (builder_step keccak) bb).blocks) n = some b →
      lookup_block bb.blocks n = some b ∨
      ∃ i : Fin calls.length, n = bb.latest_block_number + i.val ∧
        b.timestamp = (calls.get i).now := by
  induction calls with
  | nil =>
    intro bb n b hb
    exact Or.inl hb
  | cons c cs ih =>
    intro bb n b hb
    rcases ih (builder_step keccak bb c) n b hb with hold | ⟨i, hi, ht⟩
    · rw [builder_step_eq] at hold
      by_cases hn : n = bb.latest_block_number
      · subst hn
        rw [lookup_insert_self] at hold
        cases hold
        refine Or.inr ⟨⟨0, by simp⟩, by simp, ?_⟩
        simp [List.get]
      · rw [lookup_insert_ne _ _ _ _ (fun hh => hn hh.symm)] at hold
        exact Or.inl hold
    · refine Or.inr ⟨⟨i.val + 1, by simp [Nat.succ_lt_succ i.isLt]⟩, ?_, ?_⟩
      · rw [builder_step_eq] at hi
        simpa [Nat.add_assoc, Nat.add_comm 1 i.val] using hi
      · simpa [List.get] using ht

/-! ### C6: chain continuity -/

/-- C6: in every builder state reachable by a serialized sequence of
create_block calls, the block stored at key n has number field n, the block
at key 0 has the 32-zero-byte parent hash, and each block at key m + 1 has
parent_hash equal to the hash of the block stored at key m. -/
theorem chain_continuity {Sig : Type} (keccak : List Nat → List Nat)
    (calls : List (CallInput Sig)) (n : Nat) (b : Block Sig)
    (hb : lookup_block (run_builder keccak calls).blocks n = some b) :
    b.number = n ∧
    (n = 0 → b.parent_hash = zero32) ∧
    (∀ m, n = m + 1 →
      ∃ p, lookup_block (run_builder keccak calls).blocks m = some p ∧
        b.parent_hash = p.hash) := by
  have h := chaininv_run keccak calls
  refine ⟨h.number_eq n b hb, ?_, ?_⟩
  · intro h0
    rw [h0] at hb
    exact h.genesis b hb
  · intro m hm
    rw [hm] at hb
    exact h.link m b hb

/-- First concrete call: clock reads 5, no transactions, miner addr0. -/
def callA : CallInput Unit := ⟨5, [], addr0⟩

/-- Second concrete call: clock reads 7. -/
def callB : CallInput Unit := ⟨7, [], addr0⟩

/-- Third concrete call: the clock has stepped backwards to 3. -/
def callC : CallInput Unit := ⟨3, [], addr0⟩

/-- The block sealed by callA on the fresh builder. -/
def blkA : Block Unit := Block.new hash0 0 zero32 5 [] addr0

/-- The block sealed by callB right after callA. -/
def blkB : Block Unit := Block.new hash0 1 blkA.hash 7 [] addr0

/-- Witness for chain continuity: block 1 of a concrete two-call run. -/
theorem chain_continuity_witness :
    lookup_block (run_builder hash0 [callA, callB]).blocks 1 = some blkB ∧
    (blkB.number = 1 ∧ (1 = 0 → blkB.parent_hash = zero32) ∧
      (∀ m, 1 = m + 1 →
        ∃ p, lookup_block (run_builder hash0 [callA, callB]).blocks m = some p ∧
          blkB.parent_hash = p.hash)) :=
  ⟨by decide, chain_continuity hash0 [callA, callB] 1 blkB (by decide)⟩

/-! ### C7: latest block and latest block number -/

/-- C7: get_latest_block_number returns the counter, which is one past the
highest stored key (every stored key is below it, and when it is nonzero
the key one below it is stored); get_latest_block is absent exactly when
the chain is empty and otherwise is the block stored at
get_latest_block_number - 1. -/
theorem latest_block_spec {Sig : Type} (keccak : List Nat → List Nat)
    (calls : List (CallInput Sig)) :
    get_latest_block_number (run_builder keccak calls)
      = (run_builder keccak calls).latest_block_number ∧
    (∀ n b, lookup_block (run_builder keccak calls).blocks n = some b →
      n < get_latest_block_number (run_builder keccak calls)) ∧
    (get_latest_block (run_builder keccak calls) = none ↔
      (run_builder keccak calls).blocks = []) ∧
    (get_latest_block_number (run_builder keccak calls) ≠ 0 →
      get_latest_block (run_builder keccak calls)
        = lookup_block (run_builder keccak calls).blocks
            (get_latest_block_number (run_builder keccak calls) - 1) ∧
      (get_latest_block (run_builder keccak calls)).isSome) := by
  have h := chaininv_run keccak calls
  have hlatest0 : (run_builder keccak calls).latest_block_number = 0 ↔
      (run_builder keccak calls).blocks = [] := by
    constructor
    · intro h0
      cases hbl : (run_builder keccak calls).blocks with
      | nil => rfl
      | cons p rest =>
        obtain ⟨k, v⟩ := p
        have hk := (h.bound k).mp (by rw [hbl, lookup_cons_self]; rfl)
        omega
    · intro hbl
      by_contra h0
      have hsome := (h.bound
        ((run_builder keccak calls).latest_block_number - 1)).mpr (by omega)
      rw [hbl] at hsome
      simp [lookup_block] at hsome
  refine ⟨rfl, ?_, ?_, ?_⟩
  · intro n b hb
    exact (h.bound n).mp (by rw [hb]; rfl)
  · constructor
    · intro hnone
      rw [← hlatest0]
      by_contra h0
      have hsome := (h.bound
        ((run_builder keccak calls).latest_block_number - 1)).mpr (by omega)
      simp only [get_latest_block, get_block, if_neg h0] at hnone
      rw [hnone] at hsome
      simp at hsome
    · intro hbl
      have h0 := hlatest0.mpr hbl
      simp [get_latest_block, h0]
  · intro hne
    have hne' : (run_builder keccak calls).latest_block_number ≠ 0 := hne
    have hsome := (h.bound
      ((run_builder keccak calls).latest_block_number - 1)).mpr (by omega)
    constructor
    · simp only [get_latest_block, get_block, get_latest_block_number,
        if_neg hne']
    · simp only [get_latest_block, get_block, if_neg hne']
      exact hsome

/-- Witness for the latest-block theorem after a concrete two-call run. -/
theorem latest_block_spec_witness :
    get_latest_block_number (run_builder hash0 [callA, callB]) ≠ 0 ∧
    (get_latest_block (run_builder hash0 [callA, callB])
        = lookup_block (run_builder hash0 [callA, callB]).blocks
            (get_latest_block_number (run_builder hash0 [callA, callB]) - 1) ∧
      (get_latest_block (run_builder hash0 [callA, callB])).isSome) :=
  ⟨by decide, (latest_block_spec hash0 [callA, callB]).2.2.2 (by decide)⟩

/-! ### C8: timestamps -/

/-- The block sealed by callC right after callA: the clock has stepped
backwards, and the sealed timestamp is 3. -/
def blkC : Block Unit := Block.new hash0 1 blkA.hash 3 [] addr0

/-- C8 (counterexample): create_block does not clamp the timestamp. With a
clock that steps backwards between the two calls (5 then 3), block 1's
timestamp is strictly below block 0's, and differs from
max(now, prev.timestamp) = max 3 5. -/
theorem create_block_timestamp_cex :
    lookup_block (run_builder hash0 [callA, callC]).blocks 0 = some blkA ∧
    lookup_block (run_builder hash0 [callA, callC]).blocks 1 = some blkC ∧
    blkC.timestamp < blkA.timestamp ∧
    blkC.timestamp ≠ max 3 blkA.timestamp := by
  decide

/-- C8 (amended): each sealed block's timestamp is exactly the clock value
read during its create_block call (no clamping against the previous block),
so timestamps are monotonically non-decreasing whenever the clock readings
delivered to the serialized calls are non-decreasing — and only then: a
clock stepping backwards produces decreasing timestamps. -/
theorem create_block_timestamps {Sig : Type} (keccak : List Nat → List Nat)
    (calls : List (CallInput Sig)) :
    (∀ n b, lookup_block (run_builder keccak calls).blocks n = some b →
      ∃ hn : n < calls.length, b.timestamp = (calls.get ⟨n, hn⟩).now) ∧
    ((∀ i j : Fin calls.length, i.val ≤ j.val →
        (calls.get i).now ≤ (calls.get j).now) →
      ∀ m n bm bn, m ≤ n →
        lookup_block (run_builder keccak calls).blocks m = some bm →
        lookup_block (run_builder keccak calls).blocks n = some bn →
        bm.timestamp ≤ bn.timestamp) := by
  have hmain : ∀ n b,
      lookup_block (run_builder keccak calls).blocks n = some b →
      ∃ hn : n < calls.length, b.timestamp = (calls.get ⟨n, hn⟩).now := by
    intro n b hb
    rcases run_from_timestamp keccak calls BlockBuilder.new n b hb with
      hold | ⟨i, hi, ht⟩
    · simp [BlockBuilder.new, lookup_block] at hold
    · have hn : n = i.val := by simpa [BlockBuilder.new] using hi
      subst hn
      exact ⟨i.isLt, ht⟩
  refine ⟨hmain, ?_⟩
  intro hmono m n bm bn hmn hbm hbn
  obtain ⟨hm, htm⟩ := hmain m bm hbm
  obtain ⟨hn2, htn⟩ := hmain n bn hbn
  rw [htm, htn]
  exact hmono ⟨m, hm⟩ ⟨n, hn2⟩ hmn

/-- Witness for the amended timestamp theorem: with the non-decreasing
clock readings 5 then 7, the sealed timestamps are non-decreasing. -/
theorem create_block_timestamps_witness :
    (∀ i j : Fin ([callA, callB] : List (CallInput Unit)).length,
      i.val ≤ j.val →
      (([callA, callB] : List (CallInput Unit)).get i).now
        ≤ (([callA, callB] : List (CallInput Unit)).get j).now) ∧
    (∀ m n bm bn, m ≤ n →
      lookup_block (run_builder hash0 [callA, callB]).blocks m = some bm →
      lookup_block (run_builder hash0 [callA, callB]).blocks n = some bn →
      bm.timestamp ≤ bn.timestamp) :=
  ⟨by decide, (create_block_timestamps hash0 [callA, callB]).2 (by decide)⟩

end Fastpay
